import Mathlib

/-!
Verification of the code-panda preview runner (cp-runner) against its
natural-language specification.  The Go sources are shallowly embedded:
strings are modelled as lists of characters, byte slices as lists of
naturals, the filesystem and subprocess environment as explicit oracles.
Every definition mirrors a named function of the source tree (the doc
comment of each definition names it); standard-library helpers
(path/filepath, strings, net/http sniffing, base64) are modelled after
their documented behaviour.
-/

namespace CodePanda

/-- Strings of the Go program are modelled as lists of characters. -/
abbrev Str := List Char

/-- Byte slices of the Go program are modelled as lists of naturals
(each below 256 in every use). -/
abbrev Bytes := List Nat

/-- Model of Go strings.HasPrefix s pat: pat is a leading segment of s. -/
def strStarts : Str → Str → Bool
  | _, [] => true
  | [], _ :: _ => false
  | c :: s, p :: ps => c = p && strStarts s ps

/-- Model of Go strings.HasSuffix s pat. -/
def strEnds (s pat : Str) : Bool :=
  strStarts s.reverse pat.reverse

/-- Model of Go strings.Index s c for a single-character pattern:
index of the first occurrence of c in s, none when absent (Go returns -1). -/
def charIndex (c : Char) : Str → Option Nat
  | [] => none
  | x :: rest => if x = c then some 0 else (charIndex c rest).map (· + 1)

/-- Model of Go strings.LastIndex s pat: the greatest index at which pat
occurs in s, none when there is no occurrence (Go returns -1). -/
def lastIndexSub (pat : Str) : Str → Option Nat
  | [] => if pat = [] then some 0 else none
  | c :: rest =>
    ((lastIndexSub pat rest).map (· + 1)).or
      (if strStarts (c :: rest) pat then some 0 else none)

/-- Model of Go strings.Contains s pat (substring occurrence). -/
def strContainsSub (s pat : Str) : Bool :=
  (List.range (s.length + 1)).any (fun i => strStarts (s.drop i) pat)

/-- The white-space characters recognised by Go unicode.IsSpace, restricted
to ASCII (all strings handled by the runner are ASCII). -/
def isGoSpace (c : Char) : Bool :=
  c = ' ' || c = '\t' || c = '\n' || c = Char.ofNat 11 || c = Char.ofNat 12 || c = '\r'

/-- Model of Go strings.TrimSpace: drop white space from both ends. -/
def trimSpace (s : Str) : Str :=
  ((s.dropWhile isGoSpace).reverse.dropWhile isGoSpace).reverse

/-- Model of Go strings.ToLower, restricted to ASCII. -/
def toLowerStr (s : Str) : Str :=
  s.map (fun c => if 'A' ≤ c ∧ c ≤ 'Z' then Char.ofNat (c.toNat + 32) else c)

/-! ## Go path/filepath model (unix rules; FromSlash is the identity) -/

/-- Index walk of the ".." backtracking step of Go filepath.Clean:
starting from w, decrement while above the dotdot mark and not sitting on
a separator character of the buffer.  The fuel argument only bounds the
recursion depth; it is always supplied at least the buffer length. -/
def backWalk (out : Str) (dotdot : Nat) : Nat → Nat → Nat
  | 0, w => w
  | fuel + 1, w =>
    if dotdot < w then
      if out.getD w ' ' = '/' then w else backWalk out dotdot fuel (w - 1)
    else w

/-- The backtracking step of Go filepath.Clean on seeing "..": with the
output buffer holding w characters, w is first decremented and then
decremented further while above the dotdot mark and not sitting on a
separator; the first w characters are kept. -/
def cleanBacktrack (out : Str) (dotdot : Nat) : Str :=
  out.take (backWalk out dotdot out.length (out.length - 1))

/-- The main loop of Go filepath.Clean: consume the remaining input,
maintaining the output buffer and the dotdot mark.  The fuel argument only
bounds recursion depth; goClean supplies it at least the input length. -/
def cleanLoop (rooted : Bool) : Nat → Str → Str → Nat → Str
  | 0, _, out, _ => out
  | _ + 1, [], out, _ => out
  | fuel + 1, c :: rest, out, dotdot =>
    if c = '/' then
      cleanLoop rooted fuel rest out dotdot
    else if c = '.' ∧ (rest = [] ∨ rest.head? = some '/') then
      cleanLoop rooted fuel rest out dotdot
    else if c = '.' ∧ rest.head? = some '.' ∧
        (rest.tail = [] ∨ rest.tail.head? = some '/') then
      if dotdot < out.length then
        cleanLoop rooted fuel rest.tail (cleanBacktrack out dotdot) dotdot
      else if rooted = false then
        let out2 := (if out.length ≠ 0 then out ++ ['/'] else out) ++ ['.', '.']
        cleanLoop rooted fuel rest.tail out2 out2.length
      else
        cleanLoop rooted fuel rest.tail out dotdot
    else
      let out2 := if (rooted ∧ out.length ≠ 1) ∨ (rooted = false ∧ out.length ≠ 0)
        then out ++ ['/'] else out
      cleanLoop rooted fuel (rest.dropWhile (· ≠ '/'))
        (out2 ++ c :: rest.takeWhile (· ≠ '/')) dotdot

/-- Model of Go filepath.Clean on unix paths. -/
def goClean (path : Str) : Str :=
  if path = [] then ['.']
  else
    let rooted := path.head? = some '/'
    let out :=
      if rooted then cleanLoop true path.length path.tail ['/'] 1
      else cleanLoop false path.length path [] 0
    if out = [] then ['.'] else out

/-- Model of Go filepath.Join for two non-empty elements: join with a
separator, then Clean; empty elements are skipped. -/
def goJoin (a b : Str) : Str :=
  if a = [] then (if b = [] then [] else goClean b)
  else if b = [] then goClean a
  else goClean (a ++ '/' :: b)

/-! ## Go net/http content sniffing and encoding/base64 models -/

/-- ASCII bytes of a string literal, for writing byte-level signatures. -/
def asciiBytes (s : String) : Bytes :=
  s.data.map Char.toNat

/-- The white-space bytes skipped by Go DetectContentType before matching. -/
def isSniffWS (b : Nat) : Bool :=
  b = 9 || b = 10 || b = 12 || b = 13 || b = 32

/-- A tag-terminating byte (space or the greater-than sign). -/
def isTagTerm (b : Nat) : Bool :=
  b = 32 || b = 62

/-- ASCII lower-casing of a byte. -/
def lowerByte (b : Nat) : Nat :=
  if 65 ≤ b ∧ b ≤ 90 then b + 32 else b

/-- bytesStart data pat: data begins with pat. -/
def bytesStart : Bytes → Bytes → Bool
  | _, [] => true
  | [], _ :: _ => false
  | d :: ds, p :: ps => d = p && bytesStart ds ps

/-- Go htmlSig.match: case-insensitive prefix match against the
white-space-skipped data, followed by a tag-terminating byte. -/
def htmlMatch (pat data : Bytes) : Bool :=
  decide (pat.length < data.length) &&
    bytesStart (data.map lowerByte) (pat.map lowerByte) &&
    isTagTerm (data.getD pat.length 0)

/-- Go maskedSig.match: byte-wise masked comparison against pat. -/
def maskedMatch (mask pat data : Bytes) : Bool :=
  decide (pat.length ≤ data.length) &&
    (data.zip (mask.zip pat)).all (fun x => Nat.land x.1 x.2.1 = x.2.2)

/-- A byte that Go textSig treats as binary. -/
def binaryByte (b : Nat) : Bool :=
  b ≤ 8 || b = 11 || (14 ≤ b && b ≤ 26) || (28 ≤ b && b ≤ 31)

/-- One content-sniffing signature of Go net/http sniff.go. -/
inductive SniffSig where
  | html (pat : Bytes) (ct : Str)
  | masked (mask pat : Bytes) (skipWS : Bool) (ct : Str)
  | exact (pat : Bytes) (ct : Str)
  | text (ct : Str)

/-- Evaluate a signature on the data (and its white-space-skipped form);
the empty string models the Go empty-string no-match sentinel. -/
def sigMatch (data dataNonWS : Bytes) : SniffSig → Str
  | .html pat ct => if htmlMatch pat dataNonWS then ct else []
  | .masked mask pat skip ct =>
    if maskedMatch mask pat (if skip then dataNonWS else data) then ct else []
  | .exact pat ct => if bytesStart data pat then ct else []
  | .text ct => if dataNonWS.all (fun b => !binaryByte b) then ct else []

/-- The signature table of Go net/http sniff.go (the mp4 box signature is
omitted: it yields the constant video/mp4 on a match, so, like every
other entry, it can never yield the empty string). -/
def sniffSignatures : List SniffSig :=
  let htmlCT := "text/html; charset=utf-8".data
  [ .html (asciiBytes "<!DOCTYPE HTML") htmlCT,
    .html (asciiBytes "<HTML") htmlCT,
    .html (asciiBytes "<HEAD") htmlCT,
    .html (asciiBytes "<SCRIPT") htmlCT,
    .html (asciiBytes "<IFRAME") htmlCT,
    .html (asciiBytes "<H1") htmlCT,
    .html (asciiBytes "<DIV") htmlCT,
    .html (asciiBytes "<FONT") htmlCT,
    .html (asciiBytes "<TABLE") htmlCT,
    .html (asciiBytes "<A") htmlCT,
    .html (asciiBytes "<STYLE") htmlCT,
    .html (asciiBytes "<TITLE") htmlCT,
    .html (asciiBytes "<B") htmlCT,
    .html (asciiBytes "<BODY") htmlCT,
    .html (asciiBytes "<BR") htmlCT,
    .html (asciiBytes "<P") htmlCT,
    .html (asciiBytes "<!--") htmlCT,
    .masked [255, 255, 255, 255, 255] (asciiBytes "<?xml") true
      "text/xml; charset=utf-8".data,
    .exact (asciiBytes "%PDF-") "application/pdf".data,
    .exact (asciiBytes "%!PS-Adobe-") "application/postscript".data,
    .masked [255, 255, 0, 0] [254, 255, 0, 0] false "text/plain; charset=utf-16be".data,
    .masked [255, 255, 0, 0] [255, 254, 0, 0] false "text/plain; charset=utf-16le".data,
    .masked [255, 255, 255, 0] [239, 187, 191, 0] false "text/plain; charset=utf-8".data,
    .exact [0, 0, 1, 0] "image/x-icon".data,
    .exact [0, 0, 2, 0] "image/x-icon".data,
    .exact (asciiBytes "BM") "image/bmp".data,
    .exact (asciiBytes "GIF87a") "image/gif".data,
    .exact (asciiBytes "GIF89a") "image/gif".data,
    .masked [255, 255, 255, 255, 0, 0, 0, 0, 255, 255, 255, 255, 255, 255]
      (asciiBytes "RIFF" ++ [0, 0, 0, 0] ++ asciiBytes "WEBPVP") false "image/webp".data,
    .exact [137, 80, 78, 71, 13, 10, 26, 10] "image/png".data,
    .exact [255, 216, 255] "image/jpeg".data,
    .exact [0x4D, 0x54, 0x68, 0x64, 0, 0, 0, 6] "audio/midi".data,
    .exact (asciiBytes "ID3") "audio/mpeg".data,
    .exact (asciiBytes "OggS" ++ [0]) "application/ogg".data,
    .masked [255, 255, 255, 255, 0, 0, 0, 0, 255, 255, 255, 255]
      (asciiBytes "RIFF" ++ [0, 0, 0, 0] ++ asciiBytes "WAVE") false "audio/wave".data,
    .masked [255, 255, 255, 255, 0, 0, 0, 0, 255, 255, 255, 255]
      (asciiBytes "RIFF" ++ [0, 0, 0, 0] ++ asciiBytes "AVI ") false "video/avi".data,
    .exact [0x1F, 0x8B, 0x08] "application/x-gzip".data,
    .exact (asciiBytes "PK" ++ [3, 4]) "application/zip".data,
    .exact (asciiBytes "Rar!" ++ [0x1A, 7, 0]) "application/x-rar-compressed".data,
    .exact [0, 0x61, 0x73, 0x6D] "application/wasm".data,
    .text "text/plain; charset=utf-8".data ]

/-- The signature loop of Go DetectContentType: first non-empty match. -/
def firstSigMatch (data dataNonWS : Bytes) : List SniffSig → Str
  | [] => []
  | sig :: rest =>
    let ct := sigMatch data dataNonWS sig
    if ct = [] then firstSigMatch data dataNonWS rest else ct

/-- Model of Go net/http DetectContentType: consider at most 512 bytes,
try the signatures in order, fall back to application/octet-stream. -/
def detectContentType (content : Bytes) : Str :=
  let data := content.take 512
  let dataNonWS := data.dropWhile isSniffWS
  let ct := firstSigMatch data dataNonWS sniffSignatures
  if ct = [] then "application/octet-stream".data else ct

/-- The standard base64 alphabet, as used by Go base64.StdEncoding. -/
def b64Char (n : Nat) : Char :=
  "ABCDEFGHIJKLMNOPQRSTUVWXYZabcdefghijklmnopqrstuvwxyz0123456789+/".data.getD n 'A'

/-- Model of Go base64.StdEncoding.EncodeToString. -/
def base64Encode : Bytes → Str
  | [] => []
  | [a] => [b64Char (a / 4), b64Char (a % 4 * 16), '=', '=']
  | [a, b] => [b64Char (a / 4), b64Char (a % 4 * 16 + b / 16), b64Char (b % 16 * 4), '=']
  | a :: b :: c :: rest =>
    b64Char (a / 4) :: b64Char (a % 4 * 16 + b / 16) ::
      b64Char (b % 16 * 4 + c / 64) :: b64Char (c % 64) :: base64Encode rest

/-- Model of Go filepath.Ext: the suffix starting at the final dot of the
final slash-separated element; empty when that element has no dot. -/
def goExt (p : Str) : Str :=
  let rev := p.reverse.takeWhile (fun c => c ≠ '/')
  if rev.contains '.' then '.' :: (rev.takeWhile (fun c => c ≠ '.')).reverse else []

/-! ## The /files/content handler -/

/-- A filesystem entry as observed through os.Stat and os.ReadFile. -/
inductive FsEntry where
  | file (content : Bytes)
  | dir
deriving DecidableEq

/-- The filesystem oracle: map from absolute path to entry; none models
a path for which os.Stat reports not-exist.  (Transient stat and read
errors, which the handler maps to 500, are not modelled.) -/
def Fs := Str → Option FsEntry

/-- Outcome of the /files/content handler. -/
inductive ContentResult where
  | badRequest (msg : Str)
  | ok (contentB64 : Str) (mimeType : Str)
deriving DecidableEq

/-- Model of handleGetFileContent (cp-runner/pkg/api/server.go):
validate inputs, clean the requested path (filepath.FromSlash is the
identity on unix), join it onto the project directory, require the
project directory to be a string prefix of the joined path, then stat,
reject directories, read, and answer with base64 bytes and a MIME type
sniffed from the content with an extension-table fallback (the
environment-dependent mime.TypeByExtension table is the oracle tbe). -/
def handleGetFileContent (fs : Fs) (tbe : Str → Str)
    (workspacePath projectID filePathInput : Str) : ContentResult :=
  if projectID = [] ∨ filePathInput = [] then
    .badRequest "project ID and file path are required".data
  else
    let projectPath := goJoin workspacePath projectID
    let filePath := goClean filePathInput
    let fullPath := goJoin projectPath filePath
    if strStarts fullPath projectPath = false then
      .badRequest "invalid file path: attempting to access file outside project directory".data
    else
      match fs fullPath with
      | none => .badRequest "file not found".data
      | some .dir => .badRequest "path is a directory, not a file".data
      | some (.file content) =>
        let mimeType := detectContentType content
        let mimeType := if mimeType = [] then tbe (goExt filePath) else mimeType
        .ok (base64Encode content) mimeType

/-- p lies outside the directory dir: it is neither dir itself nor below
dir as a path (i.e. it does not extend dir across a separator). -/
def outsideDir (dir p : Str) : Prop :=
  p ≠ dir ∧ strStarts p (dir ++ ['/']) = false

/-- A concrete workspace for the C1 escape: the only entry is a file in
the sibling project directory proj2. -/
def fsC1 : Fs := fun p =>
  if p = "/ws/proj2/secret".data then some (.file (asciiBytes "top")) else none

/-- C1: the claim states that every file_path resolving outside
workspace_root/project_id is answered with 400 and the file is not read.
The code instead guards with a plain string-prefix test, so a path that
escapes into a sibling directory whose name extends the project
directory name passes the guard: with workspace /ws, project proj and
file_path ../proj2/secret, the request resolves to /ws/proj2/secret,
which lies outside /ws/proj, yet the handler returns the file bytes
(base64 of "top" with the sniffed text/plain type) instead of 400. -/
theorem c1_traversal_guard_bypassed :
    outsideDir ("/ws/proj".data)
      (goJoin (goJoin "/ws".data "proj".data) (goClean "../proj2/secret".data)) ∧
    handleGetFileContent fsC1 (fun _ => []) "/ws".data "proj".data
      "../proj2/secret".data =
      .ok ("dG9w".data) ("text/plain; charset=utf-8".data) := by
  exact ⟨⟨by decide, by decide⟩, by decide⟩

/-- Go DetectContentType never yields the empty string: each signature
either yields its fixed non-empty MIME constant or is skipped, and the
final fallback is application/octet-stream. -/
theorem detect_ct_ne_empty (content : Bytes) : detectContentType content ≠ [] := by
  by_cases h : firstSigMatch (content.take 512)
      ((content.take 512).dropWhile isSniffWS) sniffSignatures = [] <;>
    simp [detectContentType, h]

/-- C9 counterexample: the claim asserts that there exist inputs on which
content sniffing cannot determine a type (the empty-string sentinel), so
that the extension-derived fallback becomes the returned type.  There is
no such input: the sniffer never yields the empty string, hence the
extension fallback branch of handleGetFileContent is unreachable. -/
theorem c9_no_fallback_input :
    ¬ ∃ content : Bytes, detectContentType content = [] := by
  intro h
  obtain ⟨c, hc⟩ := h
  exact detect_ct_ne_empty c hc

/-- C9 (amended): every successful /files/content response carries the
file bytes base64-encoded together with the MIME type sniffed from the
content; the sniffed type is never empty (defaulting to
application/octet-stream), so the extension-based fallback never
determines the returned type, for any extension table tbe. -/
theorem c9_content_response_sniffed_mime (fs : Fs) (tbe : Str → Str)
    (ws pid fp : Str) (content : Bytes)
    (hpid : pid ≠ []) (hfp : fp ≠ [])
    (hpre : strStarts (goJoin (goJoin ws pid) (goClean fp)) (goJoin ws pid) = true)
    (hfile : fs (goJoin (goJoin ws pid) (goClean fp)) = some (.file content)) :
    handleGetFileContent fs tbe ws pid fp =
      .ok (base64Encode content) (detectContentType content) ∧
    detectContentType content ≠ [] := by
  refine ⟨?_, detect_ct_ne_empty content⟩
  simp only [handleGetFileContent, hpre, hfile]
  simp [hpid, hfp, detect_ct_ne_empty content]

/-- A one-file workspace for the C9 witness. -/
def fsC9 : Fs := fun p =>
  if p = "/ws/p1/a.txt".data then some (.file [104]) else none

/-- Witness for C9: the amended theorem applied to the concrete
workspace fsC9 at project p1 and file a.txt. -/
theorem c9_content_response_sniffed_mime_witness :
    ("p1".data ≠ ([] : Str)) ∧ ("a.txt".data ≠ ([] : Str)) ∧
    strStarts (goJoin (goJoin "/ws".data "p1".data) (goClean "a.txt".data))
      (goJoin "/ws".data "p1".data) = true ∧
    fsC9 (goJoin (goJoin "/ws".data "p1".data) (goClean "a.txt".data)) =
      some (.file [104]) ∧
    (handleGetFileContent fsC9 (fun _ => []) "/ws".data "p1".data "a.txt".data =
      .ok (base64Encode [104]) (detectContentType [104]) ∧
    detectContentType [104] ≠ []) :=
  ⟨by decide, by decide, by decide, by decide,
    c9_content_response_sniffed_mime fsC9 (fun _ => []) "/ws".data "p1".data
      "a.txt".data [104] (by decide) (by decide) (by decide) (by decide)⟩

/-! ## Filesystem walker (cp-runner/pkg/filesystem/traverse.go) and
the /files/tree handler -/

/-- Model of Go filepath.Base: strip trailing separators, then keep the
last path element; "." for the empty path and "/" for all-separator
paths. -/
def goBase (p : Str) : Str :=
  if p = [] then ['.']
  else
    let p1 := (p.reverse.dropWhile (· = '/')).reverse
    if p1 = [] then ['/']
    else
      let last := (p1.reverse.takeWhile (fun c => c ≠ '/')).reverse
      if last = [] then ['/'] else last

/-- The pruning skip set of skipDirectory (traverse.go). -/
def skippedDirs : List Str :=
  ["node_modules".data, "__pycache__".data, ".mypy_cache".data,
   ".pytest_cache".data, ".git".data, ".next".data, "dist".data,
   "build".data, ".venv".data, "venv".data, ".env".data, ".codepanda".data]

/-- Model of skipDirectory: lowercase the name and match the skip set. -/
def skipDirectory (name : Str) : Bool :=
  skippedDirs.contains (toLowerStr name)

/-- A directory subtree as the walker observes it through os.Stat and
os.ReadDir; names are entry base names, in ReadDir order. -/
inductive FsTree where
  | file (name : Str)
  | dir (name : Str) (entries : List FsTree)

/-- The tree node returned by the walker (filesystem.Node). -/
structure FNode where
  name : Str
  type : Str
  children : List FNode

mutual
/-- Model of filesystem.BuildFileTree: none models the (nil, nil) return
for a skipped directory.  (Per-entry stat and read errors, which the
source merely skips, are not modelled.) -/
def buildFileTree : FsTree → Option FNode
  | .file name => some ⟨name, "file".data, []⟩
  | .dir name entries =>
    if skipDirectory name then none
    else some ⟨name, "folder".data, buildChildren entries⟩

/-- The child loop of BuildFileTree: recurse into each entry and append
the non-nil results. -/
def buildChildren : List FsTree → List FNode
  | [] => []
  | e :: rest =>
    match buildFileTree e with
    | none => buildChildren rest
    | some n => n :: buildChildren rest
end

/-- Outcome of the /files/tree handler. -/
inductive TreeResult where
  | badRequest (msg : Str)
  | serverError (msg : Str)
  | panics
  | ok (root : FNode)

/-- Model of handleGetFileContent sibling handleGetFileTree
(cp-runner/pkg/api/server.go): validate the project id, build the tree.
The Go handler dereferences tree.Name without a nil check, so the
(nil, nil) answer of BuildFileTree for a skipped root directory is a
nil-pointer dereference, modelled as .panics (it surfaces through the
chi Recoverer middleware). -/
def handleGetFileTree (fs : Str → Option FsTree) (ws pid : Str) : TreeResult :=
  if pid = [] then .badRequest "project ID is required".data
  else
    match fs (goJoin ws pid) with
    | none => .serverError "Failed to build file tree".data
    | some t =>
      match buildFileTree t with
      | none => .panics
      | some node => .ok node

/-- C10: for every project whose directory base name, lowercased, lies in
the pruning skip set, BuildFileTree answers nil with a nil error and the
/files/tree handler dereferences that nil root: the request panics
instead of producing a tree or a 400. -/
theorem c10_skipped_root_panics (fs : Str → Option FsTree) (ws pid : Str)
    (entries : List FsTree)
    (hpid : pid ≠ [])
    (hstat : fs (goJoin ws pid) = some (.dir (goBase (goJoin ws pid)) entries))
    (hskip : skipDirectory (goBase (goJoin ws pid)) = true) :
    handleGetFileTree fs ws pid = .panics := by
  simp [handleGetFileTree, hpid, hstat, buildFileTree, hskip]

/-- A workspace whose project directory is named dist. -/
def fsC10 : Str → Option FsTree := fun _ => some (.dir "dist".data [])

/-- Witness for C10 at the concrete project id dist. -/
theorem c10_skipped_root_panics_witness :
    ("dist".data ≠ ([] : Str)) ∧
    fsC10 (goJoin "/ws".data "dist".data) =
      some (.dir (goBase (goJoin "/ws".data "dist".data)) []) ∧
    skipDirectory (goBase (goJoin "/ws".data "dist".data)) = true ∧
    handleGetFileTree fsC10 "/ws".data "dist".data = .panics :=
  ⟨by decide, rfl, by decide,
    c10_skipped_root_panics fsC10 "/ws".data "dist".data [] (by decide) rfl (by decide)⟩

/-! ## Reverse proxy loading mode (proxy.go, embedded in
src/cp-webapp/src/app/projects/layout.tsx) -/

/-- The last path segment used by proxyHandler:
path after the last separator (the whole path when there is none). -/
def lastSegment (path : Str) : Str :=
  match lastIndexSub ['/'] path with
  | some i => path.drop (i + 1)
  | none => path

/-- The HTML-navigation test of proxyHandler in loading mode: Accept
contains text/html (after lower-casing), or the last path segment has no
dot, or the path ends in a separator. -/
def wantsHTML (accept path : Str) : Bool :=
  strContainsSub (toLowerStr accept) "text/html".data ||
    !strContainsSub (lastSegment path) ['.'] ||
    strEnds path ['/']

/-- The request data consulted by proxyHandler. -/
structure ProxyReq where
  method : Str
  accept : Str
  path : Str

/-- Proxy server state: the loading flag, the static cache and the
static directory on disk (readStaticFile falls back to it). -/
structure ProxyState where
  isLoading : Bool
  cache : Str → Option Str
  diskStatic : Str → Option Str

/-- Outcome of proxyHandler for one request. -/
inductive ProxyResult where
  | okOptions
  | okLoadingPage (contentType body : Str)
  | serverError
  | unavailable (retryAfter cacheControl : Str)
  | forward
deriving DecidableEq

/-- Model of ProxyServer.readStaticFile: cache first, then disk. -/
def readStaticFile (st : ProxyState) (name : Str) : Option Str :=
  match st.cache name with
  | some c => some c
  | none => st.diskStatic name

/-- Model of ProxyServer.proxyHandler: OPTIONS short-circuits; in
loading mode HTML-looking requests receive the cached loading page and
all others a 503 with Retry-After 2 and no-store caching; outside
loading mode the request is forwarded (websocket or plain HTTP). -/
def proxyHandler (st : ProxyState) (r : ProxyReq) : ProxyResult :=
  if r.method = "OPTIONS".data then .okOptions
  else if st.isLoading then
    if wantsHTML r.accept r.path then
      match readStaticFile st "loading.html".data with
      | some body => .okLoadingPage "text/html".data body
      | none => .serverError
    else .unavailable "2".data "no-store, no-cache, must-revalidate".data
  else .forward

/-- C5: in loading mode (after the OPTIONS short-circuit, with the
loading page cached as the proxy preloads it), a request is answered
with 200 and the cached loading.html body exactly when its Accept header
contains text/html case-insensitively, or its last path segment has no
dot, or its path ends with a separator; otherwise, and only otherwise,
it is answered 503 with Retry-After 2 and Cache-Control
no-store, no-cache, must-revalidate. -/
theorem c5_loading_mode_dichotomy (st : ProxyState) (r : ProxyReq) (body : Str)
    (hload : st.isLoading = true)
    (hopt : r.method ≠ "OPTIONS".data)
    (hcache : st.cache "loading.html".data = some body) :
    (proxyHandler st r = .okLoadingPage "text/html".data body ↔
      (strContainsSub (toLowerStr r.accept) "text/html".data = true ∨
       strContainsSub (lastSegment r.path) ['.'] = false ∨
       strEnds r.path ['/'] = true)) ∧
    (proxyHandler st r =
        .unavailable "2".data "no-store, no-cache, must-revalidate".data ↔
      ¬ (strContainsSub (toLowerStr r.accept) "text/html".data = true ∨
         strContainsSub (lastSegment r.path) ['.'] = false ∨
         strEnds r.path ['/'] = true)) := by
  have hread : readStaticFile st "loading.html".data = some body := by
    simp [readStaticFile, hcache]
  have hwiff : wantsHTML r.accept r.path = true ↔
      (strContainsSub (toLowerStr r.accept) "text/html".data = true ∨
       strContainsSub (lastSegment r.path) ['.'] = false ∨
       strEnds r.path ['/'] = true) := by
    simp [wantsHTML]
    tauto
  by_cases hw : wantsHTML r.accept r.path
  · constructor
    · simp [proxyHandler, hopt, hload, hw, hread, hwiff.mp hw]
    · simp [proxyHandler, hopt, hload, hw, hread, hwiff.mp hw]
  · have hnot : ¬ (strContainsSub (toLowerStr r.accept) "text/html".data = true ∨
        strContainsSub (lastSegment r.path) ['.'] = false ∨
        strEnds r.path ['/'] = true) := by
      intro hc
      exact hw (hwiff.mpr hc)
    constructor
    · simp [proxyHandler, hopt, hload, hw, hnot]
    · simp [proxyHandler, hopt, hload, hw, hnot]

/-- A proxy state in loading mode whose cache holds the loading page. -/
def proxyStC5 : ProxyState :=
  ⟨true, fun n => if n = "loading.html".data then some "LOADING".data else none,
    fun _ => none⟩

/-- Witness for C5: a GET for a bare path with an html Accept header. -/
theorem c5_loading_mode_dichotomy_witness :
    proxyStC5.isLoading = true ∧
    ("GET".data : Str) ≠ "OPTIONS".data ∧
    proxyStC5.cache "loading.html".data = some "LOADING".data ∧
    ((proxyHandler proxyStC5 ⟨"GET".data, "text/html".data, "/app".data⟩ =
        .okLoadingPage "text/html".data "LOADING".data ↔
      (strContainsSub (toLowerStr "text/html".data) "text/html".data = true ∨
       strContainsSub (lastSegment "/app".data) ['.'] = false ∨
       strEnds "/app".data ['/'] = true)) ∧
    (proxyHandler proxyStC5 ⟨"GET".data, "text/html".data, "/app".data⟩ =
        .unavailable "2".data "no-store, no-cache, must-revalidate".data ↔
      ¬ (strContainsSub (toLowerStr "text/html".data) "text/html".data = true ∨
         strContainsSub (lastSegment "/app".data) ['.'] = false ∨
         strEnds "/app".data ['/'] = true))) :=
  ⟨rfl, by decide, rfl,
    c5_loading_mode_dichotomy proxyStC5 ⟨"GET".data, "text/html".data, "/app".data⟩
      "LOADING".data rfl (by decide) rfl⟩

/-! ## Process supervisor (cp-runner/pkg/runtime/supervisor.go) -/

/-- Supervisor state: the cmdMutex as an explicit flag (Go sync.Mutex is
not reentrant), the current child as an optional process id, and the
merged output buffer. -/
structure SupState where
  locked : Bool
  currentCmd : Option Nat
  processOutput : Str
deriving DecidableEq

/-- Environment oracle for one StartDevServer call: which of the pipe
creations or the process start fail, and the id the child would get. -/
structure SpawnEnv where
  stdoutPipeFails : Bool
  stderrPipeFails : Bool
  startFails : Bool
  newPid : Nat
deriving DecidableEq

/-- Outcome of a StartDevServer call: the call either returns (none for
the nil error, some message for a Go error) in a final state, or blocks
forever in some state. -/
inductive StartDevOutcome where
  | returns (err : Option Str) (s : SupState)
  | deadlock (s : SupState)
deriving DecidableEq

/-- Model of Supervisor.StartDevServer: acquire cmdMutex (blocking if
held by someone else); when a child exists the source calls
s.StopCurrentProcess(), whose first action is to acquire the
already-held non-reentrant cmdMutex, so the call blocks forever
(.deadlock with the lock still held and the child untouched); otherwise
create the pipes, start the child and record it as currentCmd. -/
def startDevServer (env : SpawnEnv) (s : SupState) : StartDevOutcome :=
  if s.locked then .deadlock s
  else
    let s1 : SupState := { s with locked := true }
    match s1.currentCmd with
    | some _ => .deadlock s1
    | none =>
      if env.stdoutPipeFails then
        .returns (some "failed to create stdout pipe".data) { s1 with locked := false }
      else if env.stderrPipeFails then
        .returns (some "failed to create stderr pipe".data) { s1 with locked := false }
      else if env.startFails then
        .returns (some "failed to start dev server".data) { s1 with locked := false }
      else
        .returns none { s1 with currentCmd := some env.newPid, locked := false }

/-- C4 counterexample: with an existing child (pid 7), StartDevServer
does not fail with an AlreadyRunning error - it never returns at all:
the source stops the existing child via StopCurrentProcess while already
holding cmdMutex, which self-deadlocks. -/
theorem c4_no_already_running_error :
    startDevServer ⟨false, false, false, 42⟩ ⟨false, some 7, []⟩ =
      .deadlock ⟨true, some 7, []⟩ ∧
    ¬ ∃ err s, startDevServer ⟨false, false, false, 42⟩ ⟨false, some 7, []⟩ =
      .returns err s := by
  refine ⟨by decide, ?_⟩
  rintro ⟨err, s, h⟩
  rw [show startDevServer ⟨false, false, false, 42⟩ ⟨false, some 7, []⟩ =
    .deadlock ⟨true, some 7, []⟩ from by decide] at h
  exact StartDevOutcome.noConfusion h

/-- C4 (amended): whenever StartDevServer is called with the mutex free
and a child already present, it spawns nothing and never returns: it
self-deadlocks re-acquiring cmdMutex inside StopCurrentProcess, leaving
the existing child recorded as the current child. -/
theorem c4_existing_child_deadlocks (env : SpawnEnv) (s : SupState)
    (hfree : s.locked = false) (hchild : s.currentCmd ≠ none) :
    startDevServer env s = .deadlock { s with locked := true } ∧
    ({ s with locked := true } : SupState).currentCmd = s.currentCmd := by
  cases hc : s.currentCmd with
  | none => exact absurd hc hchild
  | some pid =>
    refine ⟨?_, rfl⟩
    simp [startDevServer, hfree, hc]

/-- Witness for the amended C4 at a concrete supervisor state. -/
theorem c4_existing_child_deadlocks_witness :
    (⟨false, some 7, []⟩ : SupState).locked = false ∧
    (⟨false, some 7, []⟩ : SupState).currentCmd ≠ none ∧
    (startDevServer ⟨true, true, true, 9⟩ ⟨false, some 7, []⟩ =
        .deadlock { (⟨false, some 7, []⟩ : SupState) with locked := true } ∧
      ({ (⟨false, some 7, []⟩ : SupState) with locked := true } : SupState).currentCmd =
        (⟨false, some 7, []⟩ : SupState).currentCmd) :=
  ⟨rfl, by decide,
    c4_existing_child_deadlocks ⟨true, true, true, 9⟩ ⟨false, some 7, []⟩ rfl (by decide)⟩

/-! ## Orchestrator restart (src/unnamed/part_010, package project) -/

/-- Environment oracle for one RestartProject call: whether node_modules
is missing, and which of the install, the dev-server start and the
readiness probe fail. -/
structure RestartEnv where
  nodeModulesMissing : Bool
  installFails : Bool
  devStartFails : Bool
  probeSucceeds : Bool
deriving DecidableEq

/-- The error returned by a failed RestartProject. -/
inductive RestartErr where
  | installFailed
  | devStartFailed
  | timeout
deriving DecidableEq

/-- Which resources created by one RestartProject call are live or were
torn down by it before returning. -/
structure RestartTrace where
  proxyCreated : Bool
  proxyStopped : Bool
  childStarted : Bool
  childStopped : Bool
  loadingCleared : Bool
deriving DecidableEq

/-- Model of Orchestrator.RestartProject, winner path (the test-and-set
of restarting succeeded; part_010 lines 1285 to 1347): stop the previous
project, install dependencies when node_modules is missing (an install
failure returns before any proxy or child of this call exists), create
and start the proxy in loading mode, start the dev server (a failure
stops the proxy and returns), probe readiness (a timeout stops the proxy
and the child and returns), and clear loading mode on success.  The
trace records only resources created by this call. -/
def restartProject (env : RestartEnv) : Option RestartErr × RestartTrace :=
  let t0 : RestartTrace := ⟨false, false, false, false, false⟩
  if env.nodeModulesMissing && env.installFails then
    (some .installFailed, t0)
  else
    let t1 := { t0 with proxyCreated := true }
    if env.devStartFails then
      (some .devStartFailed, { t1 with proxyStopped := true })
    else
      let t2 := { t1 with childStarted := true }
      if env.probeSucceeds then
        (none, { t2 with loadingCleared := true })
      else
        (some .timeout, { t2 with proxyStopped := true, childStopped := true })

/-- C2: every RestartProject call that returns an error (install
failure, dev-server start failure or readiness timeout) has stopped the
proxy it created and the child it started before returning: no live
proxy or child created by the failed call outlives it. -/
theorem c2_failed_restart_teardown (env : RestartEnv) (e : RestartErr)
    (t : RestartTrace) (h : restartProject env = (some e, t)) :
    (t.proxyCreated = true → t.proxyStopped = true) ∧
    (t.childStarted = true → t.childStopped = true) := by
  unfold restartProject at h
  split at h
  · obtain ⟨he, ht⟩ := Prod.mk.injEq .. ▸ h
    subst ht
    exact ⟨fun hc => by simp at hc, fun hc => by simp at hc⟩
  · split at h
    · obtain ⟨he, ht⟩ := Prod.mk.injEq .. ▸ h
      subst ht
      exact ⟨fun _ => rfl, fun hc => by simp at hc⟩
    · split at h
      · simp at h
      · obtain ⟨he, ht⟩ := Prod.mk.injEq .. ▸ h
        subst ht
        exact ⟨fun _ => rfl, fun _ => rfl⟩

/-- Witness for C2: the dev-server start failure at a concrete
environment. -/
theorem c2_failed_restart_teardown_witness :
    restartProject ⟨false, false, true, false⟩ =
      (some .devStartFailed, ⟨true, true, false, false, false⟩) ∧
    ((⟨true, true, false, false, false⟩ : RestartTrace).proxyCreated = true →
      (⟨true, true, false, false, false⟩ : RestartTrace).proxyStopped = true) ∧
    ((⟨true, true, false, false, false⟩ : RestartTrace).childStarted = true →
      (⟨true, true, false, false, false⟩ : RestartTrace).childStopped = true) :=
  ⟨by decide,
    (c2_failed_restart_teardown ⟨false, false, true, false⟩ .devStartFailed
      ⟨true, true, false, false, false⟩ (by decide)).1,
    (c2_failed_restart_teardown ⟨false, false, true, false⟩ .devStartFailed
      ⟨true, true, false, false, false⟩ (by decide)).2⟩

/-! ## Restart coalescing: two concurrent RestartProject calls
(part_010, setRestarting lines 1273-1283 and RestartProject 1285-1292)

The shared state is the orchestrator's restarting flag, written only
under the orchestrator mutex, so setRestarting is an atomic test-and-set.
A caller that loses the test-and-set runs waitForAppReady on its own
60-second context, polling the app port; that deadline is independent of
the winner's progress (the winner may spend arbitrary wall-clock time in
the install step before its own probe starts), so both poll outcomes are
schedulable for the waiter; no channel communicates the winner's result
to it. -/

/-- The outcome a RestartProject caller returns. -/
inductive ROutcome where
  | ok
  | errInstall
  | errDevStart
  | errTimeout
deriving DecidableEq

/-- The stages of the underlying restart sequence. -/
inductive SeqStage where
  | stopOld
  | installing
  | startingProxy
  | startingDev
  | probing
deriving DecidableEq

/-- Program counter of one RestartProject caller: about to run the
test-and-set, running a stage of the sequence, waiting on its own
readiness poll after losing the test-and-set, or done with an outcome. -/
inductive TPc where
  | tryLock
  | seq (st : SeqStage)
  | waiting
  | done (r : ROutcome)
deriving DecidableEq

/-- Shared configuration: the restarting flag and the two callers. -/
structure RConfig where
  restarting : Bool
  t1 : TPc
  t2 : TPc
deriving DecidableEq

/-- One caller's step on (own pc, shared restarting flag).  Install,
dev-server and probe failures release the flag through the deferred
setRestarting(false) and return the matching error; probe success flips
loading off, releases the flag and returns nil. -/
inductive TStep : TPc × Bool → TPc × Bool → Prop where
  | lockAcquired : TStep (.tryLock, false) (.seq .stopOld, true)
  | lockBusy : TStep (.tryLock, true) (.waiting, true)
  | stopOldDone (b : Bool) : TStep (.seq .stopOld, b) (.seq .installing, b)
  | installOk (b : Bool) : TStep (.seq .installing, b) (.seq .startingProxy, b)
  | installFail (b : Bool) : TStep (.seq .installing, b) (.done .errInstall, false)
  | proxyStarted (b : Bool) : TStep (.seq .startingProxy, b) (.seq .startingDev, b)
  | devOk (b : Bool) : TStep (.seq .startingDev, b) (.seq .probing, b)
  | devFail (b : Bool) : TStep (.seq .startingDev, b) (.done .errDevStart, false)
  | probeReady (b : Bool) : TStep (.seq .probing, b) (.done .ok, false)
  | probeTimeout (b : Bool) : TStep (.seq .probing, b) (.done .errTimeout, false)
  | waitReady (b : Bool) : TStep (.waiting, b) (.done .ok, b)
  | waitTimeout (b : Bool) : TStep (.waiting, b) (.done .errTimeout, b)

/-- Interleaving semantics: either caller takes a step. -/
inductive RStep : RConfig → RConfig → Prop where
  | stepL (p p2 q : TPc) (b b2 : Bool) :
      TStep (p, b) (p2, b2) → RStep ⟨b, p, q⟩ ⟨b2, p2, q⟩
  | stepR (p q q2 : TPc) (b b2 : Bool) :
      TStep (q, b) (q2, b2) → RStep ⟨b, p, q⟩ ⟨b2, p, q2⟩

/-- Both callers about to enter RestartProject on the same orchestrator. -/
def rInit : RConfig := ⟨false, .tryLock, .tryLock⟩

/-- Reachability of the two-caller system from the initial state. -/
def RReach (c : RConfig) : Prop :=
  Relation.ReflTransGen RStep rInit c

/-- The caller is inside the underlying restart sequence. -/
def inSeq : TPc → Prop
  | .seq _ => True
  | _ => False

/-- The inductive invariant: whoever is inside the sequence holds the
restarting flag, and the other caller is not inside it. -/
def RInv (c : RConfig) : Prop :=
  (inSeq c.t1 → c.restarting = true ∧ ¬ inSeq c.t2) ∧
  (inSeq c.t2 → c.restarting = true ∧ ¬ inSeq c.t1)

theorem rInv_preserved (c c2 : RConfig) (h : RStep c c2) (hi : RInv c) :
    RInv c2 := by
  cases h with
  | stepL p p2 q b b2 hs => cases hs <;> simp_all [RInv, inSeq]
  | stepR p q q2 b b2 hs => cases hs <;> simp_all [RInv, inSeq]

theorem rInv_reach (c : RConfig) (h : RReach c) : RInv c := by
  induction h with
  | refl => exact ⟨fun hc => hc.elim, fun hc => hc.elim⟩
  | tail _ hs ih => exact rInv_preserved _ _ hs ih

/-- C3 counterexample: the claim says the second caller waits for the
in-flight restart's readiness probe and returns that outcome.  In the
reachable execution below the winner's install fails, so its readiness
probe never runs and it returns the install error, while the waiting
caller times out on its own poll and returns a timeout error: the two
callers return different outcomes. -/
theorem c3_waiter_outcome_differs :
    ¬ ∀ (c : RConfig) (r1 r2 : ROutcome),
        RReach c → c.t1 = .done r1 → c.t2 = .done r2 → r1 = r2 := by
  intro h
  have hreach : RReach ⟨false, .done .errInstall, .done .errTimeout⟩ := by
    refine Relation.ReflTransGen.head (RStep.stepL _ _ _ _ _ .lockAcquired) ?_
    refine Relation.ReflTransGen.head (RStep.stepR _ _ _ _ _ .lockBusy) ?_
    refine Relation.ReflTransGen.head (RStep.stepR _ _ _ _ _ (.waitTimeout _)) ?_
    refine Relation.ReflTransGen.head (RStep.stepL _ _ _ _ _ (.stopOldDone _)) ?_
    exact Relation.ReflTransGen.head (RStep.stepL _ _ _ _ _ (.installFail _))
      Relation.ReflTransGen.refl
  exact ROutcome.noConfusion (h _ .errInstall .errTimeout hreach rfl rfl)

/-- C3 (amended): the restart is single-flight - in every reachable
configuration of two concurrent RestartProject callers, at most one of
them is inside the underlying restart sequence; the loser takes the
waiting path and performs none of the stop, install, proxy-start,
dev-server or probe actions, polling readiness independently. -/
theorem c3_restart_single_flight (c : RConfig) (h : RReach c) :
    ¬ (inSeq c.t1 ∧ inSeq c.t2) := by
  intro hc
  exact ((rInv_reach c h).1 hc.1).2 hc.2

/-- Witness for the amended C3, at a configuration one step from the
start: the first caller has won the test-and-set and entered the
sequence. -/
theorem c3_restart_single_flight_witness :
    RReach ⟨true, .seq .stopOld, .tryLock⟩ ∧
    ¬ (inSeq (⟨true, .seq .stopOld, .tryLock⟩ : RConfig).t1 ∧
       inSeq (⟨true, .seq .stopOld, .tryLock⟩ : RConfig).t2) :=
  have hreach : RReach ⟨true, .seq .stopOld, .tryLock⟩ :=
    Relation.ReflTransGen.head (RStep.stepL _ _ _ _ _ .lockAcquired)
      Relation.ReflTransGen.refl
  ⟨hreach, c3_restart_single_flight ⟨true, .seq .stopOld, .tryLock⟩ hreach⟩

/-! ## Git-log pagination (handleGetCommits, cp-runner/pkg/api/server.go) -/

/-- A parsed commit record (changed-file enrichment does not alter the
commit sequence and is left out). -/
structure Commit where
  hash : Str
  date : Str
  message : Str
deriving DecidableEq

/-- The cursor scan of handleGetCommits: index of the first commit whose
hash equals the cursor. -/
def findHashIdx (cursor : Str) : List Commit → Option Nat
  | [] => none
  | c :: rest =>
    if c.hash = cursor then some 0 else (findHashIdx cursor rest).map (· + 1)

/-- startIndex of handleGetCommits: 0 for an absent cursor, the position
after the cursor commit when found, 0 otherwise. -/
def startIndex (commits : List Commit) (cursor : Str) : Nat :=
  if cursor = [] then 0
  else
    match findHashIdx cursor commits with
    | some i => i + 1
    | none => 0

/-- The limit defaulting of handleGetCommits: non-positive (or absent,
decoded as 0) becomes 20. -/
def effLimit (limit : Int) : Nat :=
  if limit ≤ 0 then 20 else limit.toNat

/-- One /git/commits response page. -/
structure Page where
  commits : List Commit
  hasNextPage : Bool
  nextCursor : Str
deriving DecidableEq

/-- Model of the pagination core of handleGetCommits: slice
allCommits[startIndex:endIndex] with endIndex = min(startIndex+limit,
len), has_next_page when commits remain, and next_cursor = hash of the
last page entry when another page exists. -/
def commitsPage (all : List Commit) (cursor : Str) (limit : Int) : Page :=
  let l := effLimit limit
  let s := startIndex all cursor
  let e := min (s + l) all.length
  let hasNext := e < all.length
  let page := if s < all.length then (all.drop s).take (e - s) else []
  { commits := page
    hasNextPage := hasNext
    nextCursor :=
      if hasNext ∧ page ≠ [] then
        match page.getLast? with
        | some c => c.hash
        | none => []
      else [] }

/-- Repeatedly request pages, feeding each returned next_cursor back,
concatenating the returned pages; fuel only bounds the recursion and is
supplied larger than the number of pages. -/
def collectPages (all : List Commit) (limit : Int) : Str → Nat → List Commit
  | _, 0 => []
  | cursor, fuel + 1 =>
    let p := commitsPage all cursor limit
    if p.hasNextPage then p.commits ++ collectPages all limit p.nextCursor fuel
    else p.commits

theorem effLimit_pos (limit : Int) : 1 ≤ effLimit limit := by
  unfold effLimit
  split
  · omega
  · omega

theorem findHashIdx_of_getElem (all : List Commit) (i : Nat) (hi : i < all.length)
    (hnd : (all.map (·.hash)).Nodup) :
    findHashIdx (all[i].hash) all = some i := by
  induction all generalizing i with
  | nil => simp at hi
  | cons a rest ih =>
    have h2 : (∀ x ∈ rest, ¬ x.hash = a.hash) ∧ (rest.map (·.hash)).Nodup := by
      simpa using hnd
    obtain ⟨hna, hnr⟩ := h2
    cases i with
    | zero => simp [findHashIdx]
    | succ j =>
      have hj : j < rest.length := by simpa using hi
      have hne : ¬ a.hash = rest[j].hash := by
        intro he
        exact hna rest[j] (rest.getElem_mem hj) he.symm
      have hget : (a :: rest)[j + 1] = rest[j] := by simp
      rw [hget]
      simp [findHashIdx, hne, ih j hj hnr]

theorem commitsPage_commits (all : List Commit) (cursor : Str) (limit : Int) :
    (commitsPage all cursor limit).commits =
      (all.drop (startIndex all cursor)).take (effLimit limit) := by
  unfold commitsPage
  simp only []
  by_cases hs : startIndex all cursor < all.length
  · simp only [hs, if_true]
    apply List.take_eq_take.mpr
    simp
    omega
  · simp only [hs, if_false]
    rw [List.drop_eq_nil_of_le (by omega)]
    simp

theorem commitsPage_hasNext (all : List Commit) (cursor : Str) (limit : Int) :
    (commitsPage all cursor limit).hasNextPage =
      decide (startIndex all cursor + effLimit limit < all.length) := by
  unfold commitsPage
  simp only [decide_eq_decide]
  omega

theorem commitsPage_nextCursor (all : List Commit) (cursor : Str) (limit : Int)
    (h : startIndex all cursor + effLimit limit < all.length) :
    (commitsPage all cursor limit).nextCursor =
      (all.get ⟨startIndex all cursor + effLimit limit - 1, by omega⟩).hash := by
  have hl := effLimit_pos limit
  have hs : startIndex all cursor < all.length := by omega
  unfold commitsPage
  simp only [hs, if_true]
  have hmin : (startIndex all cursor + effLimit limit) ⊓ all.length =
      startIndex all cursor + effLimit limit := by omega
  rw [hmin]
  have hss : startIndex all cursor + effLimit limit - startIndex all cursor =
      effLimit limit := by omega
  rw [hss]
  have hlen : ((all.drop (startIndex all cursor)).take (effLimit limit)).length =
      effLimit limit := by
    simp
    omega
  have hne2 : (all.drop (startIndex all cursor)).take (effLimit limit) ≠ [] := by
    intro hc
    have := congrArg List.length hc
    rw [hlen] at this
    simp at this
    omega
  rw [if_pos ⟨by omega, hne2⟩]
  have hlast : ((all.drop (startIndex all cursor)).take (effLimit limit)).getLast? =
      some (all.get ⟨startIndex all cursor + effLimit limit - 1, by omega⟩) := by
    rw [List.getLast?_take, if_neg (by omega), List.getElem?_drop]
    rw [show startIndex all cursor + (effLimit limit - 1) =
      startIndex all cursor + effLimit limit - 1 from by omega]
    rw [List.getElem?_eq_getElem (by omega)]
    simp [List.get_eq_getElem]
  rw [hlast]

theorem collectPages_eq_drop (all : List Commit) (limit : Int)
    (hnd : (all.map (·.hash)).Nodup)
    (hne : ∀ c ∈ all, c.hash ≠ [])
    (fuel : Nat) (cursor : Str)
    (hfuel : all.length - startIndex all cursor < fuel) :
    collectPages all limit cursor fuel = all.drop (startIndex all cursor) := by
  induction fuel generalizing cursor with
  | zero => omega
  | succ n ih =>
    have hl := effLimit_pos limit
    unfold collectPages
    by_cases hnext : startIndex all cursor + effLimit limit < all.length
    · rw [if_pos (by rw [commitsPage_hasNext]; simpa using hnext)]
      rw [commitsPage_commits, commitsPage_nextCursor all cursor limit hnext]
      set c2 := (all.get ⟨startIndex all cursor + effLimit limit - 1, by omega⟩).hash
        with hc2
      have hfind : findHashIdx c2 all =
          some (startIndex all cursor + effLimit limit - 1) := by
        rw [hc2]
        exact findHashIdx_of_getElem all _ (by omega) hnd
      have hc2ne : c2 ≠ [] := hne _ (List.get_mem all _ _)
      have hstart2 : startIndex all c2 = startIndex all cursor + effLimit limit := by
        rw [startIndex, if_neg hc2ne, hfind]
        show startIndex all cursor + effLimit limit - 1 + 1 = _
        omega
      rw [ih c2 (by omega), hstart2, ← List.drop_drop]
      exact List.take_append_drop (effLimit limit) (all.drop (startIndex all cursor))
    · rw [if_neg (by rw [commitsPage_hasNext]; simpa using hnext)]
      rw [commitsPage_commits]
      exact List.take_of_length_le (by simp; omega)

/-- C6: for any fixed commit history with pairwise-distinct non-empty
hashes and any requested limit (non-positive or absent values default to
20), repeatedly paging /git/commits through the returned next_cursor and
concatenating the pages reproduces exactly the unbounded listing, with
no duplicates and no omissions, and a page reports has_next_page exactly
when commits remain after it. -/
theorem c6_pagination_exact (all : List Commit) (limit : Int)
    (hnd : (all.map (·.hash)).Nodup)
    (hne : ∀ c ∈ all, c.hash ≠ []) :
    collectPages all limit [] (all.length + 1) = all ∧
    ∀ cursor, (commitsPage all cursor limit).hasNextPage = true ↔
      all.drop (startIndex all cursor + effLimit limit) ≠ [] := by
  constructor
  · have h0 : startIndex all [] = 0 := by simp [startIndex]
    have := collectPages_eq_drop all limit hnd hne (all.length + 1) [] (by omega)
    simpa [h0] using this
  · intro cursor
    rw [commitsPage_hasNext]
    simp only [decide_eq_true_eq]
    rw [ne_eq, List.drop_eq_nil_iff]
    omega

/-- A three-commit history for the C6 witness. -/
def commitsC6 : List Commit :=
  [⟨"aaa".data, "d1".data, "m1".data⟩,
   ⟨"bbb".data, "d2".data, "m2".data⟩,
   ⟨"ccc".data, "d3".data, "m3".data⟩]

/-- Witness for C6: the pagination theorem at a concrete three-commit
history with limit 2. -/
theorem c6_pagination_exact_witness :
    (commitsC6.map (·.hash)).Nodup ∧
    (∀ c ∈ commitsC6, c.hash ≠ []) ∧
    (collectPages commitsC6 2 [] (commitsC6.length + 1) = commitsC6 ∧
     ∀ cursor, (commitsPage commitsC6 cursor 2).hasNextPage = true ↔
       commitsC6.drop (startIndex commitsC6 cursor + effLimit 2) ≠ []) :=
  ⟨by decide, by decide, c6_pagination_exact commitsC6 2 (by decide) (by decide)⟩

/-! ## git log parsing (parseGitLog, cp-runner/pkg/api/server.go) -/

/-- Split at the first space: the single-separator step of Go
strings.SplitN. -/
def splitFirstSpace : Str → Option (Str × Str)
  | [] => none
  | c :: rest =>
    if c = ' ' then some ([], rest)
    else (splitFirstSpace rest).map (fun p => (c :: p.1, p.2))

/-- Model of Go strings.SplitN(s, " ", n) for n at least 1: at most n
pieces, the last holding the unsplit remainder. -/
def splitNSpaces : Nat → Str → List Str
  | 0, _ => []
  | 1, s => [s]
  | n + 2, s =>
    match splitFirstSpace s with
    | none => [s]
    | some (a, b) => a :: splitNSpaces (n + 1) b

/-- Model of one iteration of the parseGitLog loop on a single line:
split into five space-separated parts, date from the first three, hash
the fourth; from the remainder, cut everything up to the first closing
parenthesis when an opening one precedes it (the decorated ref list),
then strip the text from the last " [" on (the author tag). -/
def parseGitLogLine (line : Str) : Option Commit :=
  if line = [] then none
  else
    let parts := splitNSpaces 5 line
    if parts.length < 5 then none
    else
      let date := parts.getD 0 [] ++ ' ' :: parts.getD 1 [] ++ ' ' :: parts.getD 2 []
      let hash := parts.getD 3 []
      let remaining := parts.getD 4 []
      let m1 :=
        match charIndex ')' remaining with
        | none => remaining
        | some idx =>
          match charIndex '(' remaining with
          | none => remaining
          | some bs =>
            if bs < idx then trimSpace (remaining.drop (idx + 1)) else remaining
      let m2 :=
        match lastIndexSub [' ', '['] m1 with
        | none => m1
        | some idx => trimSpace (m1.take idx)
      some ⟨hash, date, m2⟩

theorem splitFirstSpace_append (a b : Str) (ha : ' ' ∉ a) :
    splitFirstSpace (a ++ ' ' :: b) = some (a, b) := by
  induction a with
  | nil => simp [splitFirstSpace]
  | cons c rest ih =>
    have hc : ¬ c = ' ' := fun he => ha (he ▸ List.mem_cons_self c rest)
    simp [splitFirstSpace, hc, ih (fun hm => ha (List.mem_cons_of_mem c hm))]

theorem charIndex_eq_none (c : Char) (s : Str) (h : c ∉ s) :
    charIndex c s = none := by
  induction s with
  | nil => rfl
  | cons x rest ih =>
    have hx : ¬ x = c := fun he => h (he ▸ List.mem_cons_self x rest)
    simp [charIndex, hx, ih (fun hm => h (List.mem_cons_of_mem x hm))]

theorem charIndex_append_first (a b : Str) (c : Char) (ha : c ∉ a) :
    charIndex c (a ++ c :: b) = some a.length := by
  induction a with
  | nil => simp [charIndex]
  | cons x rest ih =>
    have hx : ¬ x = c := fun he => ha (he ▸ List.mem_cons_self x rest)
    simp [charIndex, hx, ih (fun hm => ha (List.mem_cons_of_mem x hm))]

theorem strStarts_self_append (pat rest : Str) :
    strStarts (pat ++ rest) pat = true := by
  induction pat with
  | nil => cases rest <;> rfl
  | cons p ps ih => simp [strStarts, ih]

theorem strStarts_append_left (pat x y : Str) (h : pat.length ≤ x.length) :
    strStarts (x ++ y) pat = strStarts x pat := by
  induction pat generalizing x with
  | nil => cases x <;> cases y <;> rfl
  | cons p ps ih =>
    cases x with
    | nil => simp at h
    | cons a xs =>
      simp only [List.cons_append, strStarts, List.append_eq]
      rw [ih xs (by simpa using h)]

theorem lastIndexSub_eq_none (pat s : Str) (hp : pat ≠ [])
    (h : ∀ j, strStarts (s.drop j) pat = false) :
    lastIndexSub pat s = none := by
  induction s with
  | nil =>
    cases pat with
    | nil => exact absurd rfl hp
    | cons p ps => rfl
  | cons c rest ih =>
    have hrest : lastIndexSub pat rest = none :=
      ih (fun j => by simpa using h (j + 1))
    have h0 : strStarts (c :: rest) pat = false := by simpa using h 0
    simp [lastIndexSub, hrest, h0]

theorem lastIndexSub_eq_some (pat s : Str) (i : Nat) (hp : pat ≠ [])
    (hmatch : strStarts (s.drop i) pat = true)
    (hlast : ∀ j, i < j → strStarts (s.drop j) pat = false) :
    lastIndexSub pat s = some i := by
  induction s generalizing i with
  | nil =>
    rw [List.drop_nil] at hmatch
    cases pat with
    | nil => exact absurd rfl hp
    | cons p ps => simp [strStarts] at hmatch
  | cons c rest ih =>
    cases i with
    | zero =>
      have hrest : lastIndexSub pat rest = none :=
        lastIndexSub_eq_none pat rest hp (fun j => by simpa using hlast (j + 1) (by omega))
      rw [List.drop_zero] at hmatch
      simp [lastIndexSub, hrest, hmatch]
    | succ k =>
      have hrest : lastIndexSub pat rest = some k :=
        ih k (by simpa using hmatch) (fun j hj => by simpa using hlast (j + 1) (by omega))
      simp [lastIndexSub, hrest]

/-- The author-tag pattern does not occur anywhere in auth ++ "]" when it
does not occur in auth. -/
theorem strStarts_auth_bracket (auth : Str)
    (hauth : ∀ k, strStarts (auth.drop k) [' ', '['] = false) (m : Nat) :
    strStarts ((auth ++ [']']).drop m) [' ', '['] = false := by
  rw [List.drop_append_eq_append_drop]
  cases hd : auth.drop m with
  | nil =>
    cases hn : m - auth.length with
    | zero => simp [strStarts]
    | succ n2 => simp [strStarts]
  | cons a as =>
    cases as with
    | nil =>
      have hlen : auth.length - m = 1 := by
        have hcon := congrArg List.length hd
        simpa using hcon
      have hm0 : m - auth.length = 0 := by omega
      rw [hm0]
      simp [strStarts]
    | cons a2 as2 =>
      rw [strStarts_append_left [' ', '['] (a :: a2 :: as2) _ (by simp)]
      rw [← hd]
      exact hauth m

/-- lastIndexSub finds exactly the author tag: in A ++ " [" ++ auth ++ "]"
the last occurrence of " [" is at position A.length, provided the tag
pattern does not occur inside auth. -/
theorem lastIndexSub_tag (A auth : Str)
    (hauth : ∀ k, strStarts (auth.drop k) [' ', '['] = false) :
    lastIndexSub [' ', '['] (A ++ (' ' :: ('[' :: (auth ++ [']'])))) =
      some A.length := by
  apply lastIndexSub_eq_some _ _ _ (by simp)
  · rw [List.drop_left]
    exact strStarts_self_append [' ', '['] (auth ++ [']'])
  · intro j hj
    rw [List.drop_append_eq_append_drop, List.drop_eq_nil_of_le (by omega),
      List.nil_append]
    have hj2 : j - A.length = (j - A.length - 1) + 1 := by omega
    rw [hj2]
    cases hk : j - A.length - 1 with
    | zero => simp [strStarts]
    | succ m =>
      show strStarts ((auth ++ [']']).drop m) [' ', '['] = false
      exact strStarts_auth_bracket auth hauth m


theorem dropWhile_no_space_head (s : Str)
    (hh : ∀ c, s.head? = some c → isGoSpace c = false) :
    s.dropWhile isGoSpace = s := by
  cases s with
  | nil => rfl
  | cons x xs => rw [List.dropWhile_cons_of_neg (by simp [hh x rfl])]

theorem trimSpace_clean (s : Str)
    (hh : ∀ c, s.head? = some c → isGoSpace c = false)
    (hl : ∀ c, s.getLast? = some c → isGoSpace c = false) :
    trimSpace s = s := by
  unfold trimSpace
  rw [dropWhile_no_space_head s hh]
  rw [dropWhile_no_space_head s.reverse
    (fun c hc => hl c (by rwa [List.head?_reverse] at hc))]
  exact List.reverse_reverse s

theorem trimSpace_space_cons (s : Str)
    (hh : ∀ c, s.head? = some c → isGoSpace c = false)
    (hl : ∀ c, s.getLast? = some c → isGoSpace c = false) :
    trimSpace (' ' :: s) = s := by
  unfold trimSpace
  rw [List.dropWhile_cons_of_pos (by simp [isGoSpace])]
  rw [dropWhile_no_space_head s hh]
  rw [dropWhile_no_space_head s.reverse
    (fun c hc => hl c (by rwa [List.head?_reverse] at hc))]
  exact List.reverse_reverse s

theorem splitN5_line (d1 d2 d3 h rem : Str)
    (h1 : ' ' ∉ d1) (h2 : ' ' ∉ d2) (h3 : ' ' ∉ d3) (h4 : ' ' ∉ h) :
    splitNSpaces 5
        (d1 ++ (' ' :: (d2 ++ (' ' :: (d3 ++ (' ' :: (h ++ (' ' :: rem)))))))) =
      [d1, d2, d3, h, rem] := by
  show splitNSpaces (3 + 2) _ = _
  rw [splitNSpaces, splitFirstSpace_append _ _ h1]
  show d1 :: splitNSpaces (2 + 2) _ = _
  rw [splitNSpaces, splitFirstSpace_append _ _ h2]
  show d1 :: d2 :: splitNSpaces (1 + 2) _ = _
  rw [splitNSpaces, splitFirstSpace_append _ _ h3]
  show d1 :: d2 :: d3 :: splitNSpaces (0 + 2) _ = _
  rw [splitNSpaces, splitFirstSpace_append _ _ h4]
  rfl

/-- The tail " [" ++ author ++ "]" appended by the %an author tag of the
git log format. -/
def tagTail (auth : Str) : Str :=
  ' ' :: ('[' :: (auth ++ [']']))

/-- A git log line of the "%ai %H %d %s [%an]" format with an empty %d
decoration (git prints nothing for %d, leaving a doubled space). -/
def gitLineNoRefs (d1 d2 d3 hash subj auth : Str) : Str :=
  d1 ++ (' ' :: (d2 ++ (' ' :: (d3 ++ (' ' :: (hash ++ (' ' ::
    (' ' :: (subj ++ tagTail auth)))))))))

/-- A git log line of the same format with a non-empty %d decoration
" (refs)". -/
def gitLineRefs (d1 d2 d3 hash refs subj auth : Str) : Str :=
  d1 ++ (' ' :: (d2 ++ (' ' :: (d3 ++ (' ' :: (hash ++ (' ' ::
    (' ' :: ('(' :: (refs ++ (')' :: (' ' :: (subj ++ tagTail auth)))))))))))))

theorem parseGitLogLine_no_refs (d1 d2 d3 hash subj auth : Str)
    (hd1 : ' ' ∉ d1) (hd2 : ' ' ∉ d2) (hd3 : ' ' ∉ d3) (hhs : ' ' ∉ hash)
    (hsubjNe : subj ≠ [])
    (hsubjHead : ∀ c, subj.head? = some c → isGoSpace c = false)
    (hsubjLast : ∀ c, subj.getLast? = some c → isGoSpace c = false)
    (hsubjPl : '(' ∉ subj) (hsubjPr : ')' ∉ subj)
    (hauthPl : '(' ∉ auth)
    (hauthTag : ∀ k, strStarts (auth.drop k) [' ', '['] = false) :
    parseGitLogLine (gitLineNoRefs d1 d2 d3 hash subj auth) =
      some ⟨hash, d1 ++ ' ' :: d2 ++ ' ' :: d3, subj⟩ := by
  have hlineNe : gitLineNoRefs d1 d2 d3 hash subj auth ≠ [] := by
    simp [gitLineNoRefs]
  unfold parseGitLogLine
  rw [if_neg hlineNe]
  unfold gitLineNoRefs
  rw [splitN5_line _ _ _ _ _ hd1 hd2 hd3 hhs]
  simp only [List.length_cons, List.length_nil, List.getD_cons_zero,
    List.getD_cons_succ]
  rw [if_neg (by omega)]
  have hparen : '(' ∉ (' ' :: (subj ++ tagTail auth)) := by
    simp [tagTail]
    exact ⟨hsubjPl, hauthPl⟩
  have hshape : (' ' :: (subj ++ tagTail auth)) =
      (' ' :: subj) ++ tagTail auth := by simp
  have htag : lastIndexSub [' ', '['] (' ' :: (subj ++ tagTail auth)) =
      some (subj.length + 1) := by
    rw [hshape]
    unfold tagTail
    rw [lastIndexSub_tag (' ' :: subj) auth hauthTag]
    simp
  have htake : (' ' :: (subj ++ tagTail auth)).take (subj.length + 1) =
      ' ' :: subj := by
    rw [hshape]
    exact List.take_left' (by simp)
  cases hidx : charIndex ')' (' ' :: (subj ++ tagTail auth)) with
  | none =>
    simp only [hidx, charIndex_eq_none '(' _ hparen, htag, htake]
    rw [trimSpace_space_cons subj hsubjHead hsubjLast]
  | some idx =>
    simp only [hidx, charIndex_eq_none '(' _ hparen, htag, htake]
    rw [trimSpace_space_cons subj hsubjHead hsubjLast]
theorem parseGitLogLine_refs (d1 d2 d3 hash refs subj auth : Str)
    (hd1 : ' ' ∉ d1) (hd2 : ' ' ∉ d2) (hd3 : ' ' ∉ d3) (hhs : ' ' ∉ hash)
    (hsubjNe : subj ≠ [])
    (hsubjHead : ∀ c, subj.head? = some c → isGoSpace c = false)
    (hsubjLast : ∀ c, subj.getLast? = some c → isGoSpace c = false)
    (hauthTag : ∀ k, strStarts (auth.drop k) [' ', '['] = false)
    (hrefsPr : ')' ∉ refs) :
    parseGitLogLine (gitLineRefs d1 d2 d3 hash refs subj auth) =
      some ⟨hash, d1 ++ ' ' :: d2 ++ ' ' :: d3, subj⟩ := by
  have hlineNe : gitLineRefs d1 d2 d3 hash refs subj auth ≠ [] := by
    simp [gitLineRefs]
  unfold parseGitLogLine
  rw [if_neg hlineNe]
  unfold gitLineRefs
  rw [splitN5_line _ _ _ _ _ hd1 hd2 hd3 hhs]
  simp only [List.length_cons, List.length_nil, List.getD_cons_zero,
    List.getD_cons_succ]
  rw [if_neg (by omega)]
  have hshapeR : (' ' :: ('(' :: (refs ++ (')' :: (' ' :: (subj ++ tagTail auth)))))) =
      (' ' :: ('(' :: refs)) ++ (')' :: (' ' :: (subj ++ tagTail auth))) := by simp
  have hidxR : charIndex ')'
      (' ' :: ('(' :: (refs ++ (')' :: (' ' :: (subj ++ tagTail auth)))))) =
      some (refs.length + 2) := by
    rw [hshapeR, charIndex_append_first _ _ _ (by simp [hrefsPr])]
    simp
  have hidxL : charIndex '('
      (' ' :: ('(' :: (refs ++ (')' :: (' ' :: (subj ++ tagTail auth)))))) =
      some 1 := by
    simp [charIndex]
  simp only [hidxR, hidxL]
  rw [if_pos (by omega)]
  have hdrop : (' ' :: ('(' :: (refs ++ (')' :: (' ' :: (subj ++ tagTail auth)))))).drop
      (refs.length + 2 + 1) = ' ' :: (subj ++ tagTail auth) := by
    have hshape2 : (' ' :: ('(' :: (refs ++ (')' :: (' ' :: (subj ++ tagTail auth)))))) =
        (' ' :: ('(' :: (refs ++ [')']))) ++ (' ' :: (subj ++ tagTail auth)) := by simp
    rw [hshape2]
    exact List.drop_left' (by simp)
  rw [hdrop]
  have hh2 : ∀ c, (subj ++ tagTail auth).head? = some c → isGoSpace c = false := by
    intro c hc
    rw [List.head?_append] at hc
    cases hs : subj.head? with
    | none => exact absurd (List.head?_eq_none_iff.mp hs) hsubjNe
    | some c0 =>
      rw [hs] at hc
      simp at hc
      rw [← hc]
      exact hsubjHead c0 hs
  have hl2 : ∀ c, (subj ++ tagTail auth).getLast? = some c → isGoSpace c = false := by
    intro c hc
    rw [List.getLast?_append] at hc
    have hlastTag : (tagTail auth).getLast? = some ']' := by
      have hshape3 : tagTail auth = (' ' :: ('[' :: auth)) ++ [']'] := by
        simp [tagTail]
      rw [hshape3, List.getLast?_concat]
    rw [hlastTag] at hc
    simp at hc
    rw [← hc]
    decide
  rw [trimSpace_space_cons _ hh2 hl2]
  have htagR : lastIndexSub [' ', '['] (subj ++ tagTail auth) =
      some subj.length := by
    unfold tagTail
    exact lastIndexSub_tag subj auth hauthTag
  simp only [htagR]
  rw [List.take_left]
  rw [trimSpace_clean subj hsubjHead hsubjLast]
theorem strStarts_drop_false_of_bounded (pat s : Str) (hp : pat ≠ [])
    (h : ∀ k, k < s.length → strStarts (s.drop k) pat = false) :
    ∀ k, strStarts (s.drop k) pat = false := by
  intro k
  by_cases hk : k < s.length
  · exact h k hk
  · rw [List.drop_eq_nil_of_le (by omega)]
    cases pat with
    | nil => exact absurd rfl hp
    | cons p ps => rfl

/-- C7: on every git log line of the "%ai %H %d %s [%an]" format - with
an empty %d (doubled space) or a parenthesized ref list - the parser
extracts the date as the first three space-separated fields joined by
single spaces, the hash as the fourth field, and the subject as the text
after the ref list and before the trailing " [author]" tag; in
particular, when the subject contains no parentheses (it may contain
bracket characters) and the author name does not contain the " ["
pattern, the parsed subject is exactly the original subject, with only
the trailing author tag removed. -/
theorem c7_subject_extraction (d1 d2 d3 hash refs subj auth : Str)
    (hd1 : ' ' ∉ d1) (hd2 : ' ' ∉ d2) (hd3 : ' ' ∉ d3) (hhs : ' ' ∉ hash)
    (hsubjNe : subj ≠ [])
    (hsubjHead : ∀ c, subj.head? = some c → isGoSpace c = false)
    (hsubjLast : ∀ c, subj.getLast? = some c → isGoSpace c = false)
    (hsubjPl : '(' ∉ subj) (hsubjPr : ')' ∉ subj)
    (hauthPl : '(' ∉ auth)
    (hauthTag : ∀ k, strStarts (auth.drop k) [' ', '['] = false)
    (hrefsPr : ')' ∉ refs) :
    parseGitLogLine (gitLineNoRefs d1 d2 d3 hash subj auth) =
      some ⟨hash, d1 ++ ' ' :: d2 ++ ' ' :: d3, subj⟩ ∧
    parseGitLogLine (gitLineRefs d1 d2 d3 hash refs subj auth) =
      some ⟨hash, d1 ++ ' ' :: d2 ++ ' ' :: d3, subj⟩ :=
  ⟨parseGitLogLine_no_refs d1 d2 d3 hash subj auth hd1 hd2 hd3 hhs hsubjNe
      hsubjHead hsubjLast hsubjPl hsubjPr hauthPl hauthTag,
    parseGitLogLine_refs d1 d2 d3 hash refs subj auth hd1 hd2 hd3 hhs hsubjNe
      hsubjHead hsubjLast hauthTag hrefsPr⟩

/-- Witness for C7 on a concrete line: subject "fix [x] y" (with an
inner bracket group), author "Jane Doe", ref list "HEAD -> main". -/
theorem c7_subject_extraction_witness :
    (' ' ∉ "2024-01-02".data) ∧ ("fix [x] y".data ≠ ([] : Str)) ∧
    (parseGitLogLine
        (gitLineNoRefs "2024-01-02".data "15:04:05".data "+0000".data
          "abc123".data "fix [x] y".data "Jane Doe".data) =
      some ⟨"abc123".data,
        "2024-01-02".data ++ ' ' :: "15:04:05".data ++ ' ' :: "+0000".data,
        "fix [x] y".data⟩ ∧
    parseGitLogLine
        (gitLineRefs "2024-01-02".data "15:04:05".data "+0000".data
          "abc123".data "HEAD -> main".data "fix [x] y".data "Jane Doe".data) =
      some ⟨"abc123".data,
        "2024-01-02".data ++ ' ' :: "15:04:05".data ++ ' ' :: "+0000".data,
        "fix [x] y".data⟩) :=
  ⟨by decide, by decide,
    c7_subject_extraction "2024-01-02".data "15:04:05".data "+0000".data
      "abc123".data "HEAD -> main".data "fix [x] y".data "Jane Doe".data
      (by decide) (by decide) (by decide) (by decide) (by decide)
      (by intro c hc; simp at hc; rw [← hc]; decide)
      (by intro c hc; simp at hc; rw [← hc]; decide)
      (by decide) (by decide) (by decide)
      (strStarts_drop_false_of_bounded [' ', '['] "Jane Doe".data (by decide)
        (by decide))
      (by decide)⟩
/-! ## HTML script injector (src/unnamed/part_001, package html)

The golang.org/x/net/html document is a tree of nodes with first-child /
next-sibling links; it is modelled as a mutual pair: a node is a text
node or an element with a tag, attributes and a child forest.  Pointers
into the tree are modelled as child-index paths. -/

mutual
/-- An HTML document node. -/
inductive HNode where
  | text (s : Str) : HNode
  | elem (tag : Str) (attrs : List (Str × Str)) (children : HForest) : HNode

/-- A sibling list of HTML nodes. -/
inductive HForest where
  | nil : HForest
  | cons (hd : HNode) (tl : HForest) : HForest
end

mutual
/-- The findHead / findHtml walk of ensureHead: visit a node; on a tag
match record it and skip its subtree; otherwise walk the children, later
siblings overriding earlier finds (the Go walk assigns to a shared
variable and never stops early across siblings).  Returns the path of
the recorded node. -/
def findLastTag (tag : Str) : HNode → Option (List Nat)
  | .text _ => none
  | .elem t _ cs =>
    if t = tag then some []
    else (findLastTagF tag cs).map (fun ip => ip.1 :: ip.2)

/-- The walk over a sibling forest: index of the recorded child and the
path inside it, with later siblings overriding earlier ones. -/
def findLastTagF (tag : Str) : HForest → Option (Nat × List Nat)
  | .nil => none
  | .cons c rest =>
    match findLastTagF tag rest with
    | some ip => some (ip.1 + 1, ip.2)
    | none => (findLastTag tag c).map (fun p => (0, p))
end

mutual
/-- Follow a child-index path down a node. -/
def getAt : HNode → List Nat → Option HNode
  | n, [] => some n
  | .text _, _ :: _ => none
  | .elem _ _ cs, i :: p => getAtF cs i p

/-- Follow a path starting at the i-th node of a forest. -/
def getAtF : HForest → Nat → List Nat → Option HNode
  | .nil, _, _ => none
  | .cons c _, 0, p => getAt c p
  | .cons _ rest, i + 1, p => getAtF rest i p
end

mutual
/-- Apply f to the node at the given path (the pure rendering of a
mutation through a held pointer); anywhere the path dangles the tree is
returned unchanged. -/
def modifyAt (f : HNode → HNode) : HNode → List Nat → HNode
  | n, [] => f n
  | .text s, _ :: _ => .text s
  | .elem t a cs, i :: p => .elem t a (modifyAtF f cs i p)

/-- modifyAt through the i-th node of a forest. -/
def modifyAtF (f : HNode → HNode) : HForest → Nat → List Nat → HForest
  | .nil, _, _ => .nil
  | .cons c rest, 0, p => .cons (modifyAt f c p) rest
  | .cons c rest, i + 1, p => .cons c (modifyAtF f rest i p)
end

mutual
/-- Number of elements with the given tag in a node. -/
def countTag (tag : Str) : HNode → Nat
  | .text _ => 0
  | .elem t _ cs => (if t = tag then 1 else 0) + countTagF tag cs

/-- Number of elements with the given tag in a forest. -/
def countTagF (tag : Str) : HForest → Nat
  | .nil => 0
  | .cons c rest => countTag tag c + countTagF tag rest
end

/-- A script registration (html.ScriptConfig). -/
structure ScriptConfig where
  content : Str
  attrs : List (Str × Str)
  insertFirst : Bool

/-- The script element InjectIntoHTML builds: a script tag with the
given attributes and, for non-empty content, one trimmed text child. -/
def scriptNode (sc : ScriptConfig) : HNode :=
  .elem "script".data sc.attrs
    (if sc.content = [] then .nil else .cons (.text (trimSpace sc.content)) .nil)

/-- Append a node at the end of a forest (head.AppendChild). -/
def appendF : HForest → HNode → HForest
  | .nil, x => .cons x .nil
  | .cons c rest, x => .cons c (appendF rest x)

/-- The per-script injection step of InjectIntoHTML applied to the head
element: InsertBefore the first child when insert_first, AppendChild
otherwise. -/
def insertScriptIntoHead (sc : ScriptConfig) : HNode → HNode
  | .text s => .text s
  | .elem t a cs =>
    .elem t a (if sc.insertFirst then .cons (scriptNode sc) cs else appendF cs (scriptNode sc))

/-- The fresh head element ensureHead creates. -/
def newHeadNode : HNode :=
  .elem "head".data [] .nil

/-- Prepend a child (InsertBefore the first child, or AppendChild when
there are no children). -/
def prependChildNode (child : HNode) : HNode → HNode
  | .text s => .text s
  | .elem t a cs => .elem t a (.cons child cs)

/-- Model of ensureHead: locate an existing head (last in the walk
order); otherwise locate html and insert a new head as its first child;
fail when no html tag exists either.  Returns the document and the path
of the head. -/
def ensureHead (doc : HNode) : Except Str (HNode × List Nat) :=
  match findLastTag "head".data doc with
  | some p => .ok (doc, p)
  | none =>
    match findLastTag "html".data doc with
    | none => .error "no html tag found in document".data
    | some q => .ok (modifyAt (prependChildNode newHeadNode) doc q, q ++ [0])

/-- Model of InjectIntoHTML after parsing: ensure the head, then insert
each registered script in order (parsing and re-serialization of the
byte stream are outside the model; the proxy registers the heartbeat and
navigation scripts, both with insert_first). -/
def injectIntoHTML (scripts : List ScriptConfig) (doc : HNode) : Except Str HNode :=
  match ensureHead doc with
  | .error e => .error e
  | .ok (d, p) =>
    .ok (scripts.foldl (fun acc sc => modifyAt (insertScriptIntoHead sc) acc p) d)

mutual
theorem findLastTag_sound (tag : Str) : (n : HNode) → (p : List Nat) →
    findLastTag tag n = some p → ∃ a cs, getAt n p = some (.elem tag a cs)
  | .text s, p, h => by simp [findLastTag] at h
  | .elem t a cs, p, h => by
    by_cases ht : t = tag
    · rw [findLastTag, if_pos ht] at h
      obtain rfl : ([] : List Nat) = p := Option.some.inj h
      exact ⟨a, cs, by rw [getAt, ht]⟩
    · rw [findLastTag, if_neg ht] at h
      cases hf : findLastTagF tag cs with
      | none => rw [hf] at h; simp at h
      | some ip =>
        rw [hf] at h
        obtain rfl : ip.1 :: ip.2 = p := Option.some.inj (by simpa using h)
        obtain ⟨a2, cs2, hg⟩ := findLastTagF_sound tag cs ip hf
        exact ⟨a2, cs2, by rw [getAt]; exact hg⟩

theorem findLastTagF_sound (tag : Str) : (cs : HForest) → (ip : Nat × List Nat) →
    findLastTagF tag cs = some ip →
    ∃ a cs2, getAtF cs ip.1 ip.2 = some (.elem tag a cs2)
  | .nil, ip, h => by simp [findLastTagF] at h
  | .cons c rest, ip, h => by
    rw [findLastTagF] at h
    cases hr : findLastTagF tag rest with
    | some ip2 =>
      rw [hr] at h
      obtain rfl : (ip2.1 + 1, ip2.2) = ip := Option.some.inj h
      obtain ⟨a2, cs2, hg⟩ := findLastTagF_sound tag rest ip2 hr
      exact ⟨a2, cs2, by rw [getAtF]; exact hg⟩
    | none =>
      rw [hr] at h
      cases hc : findLastTag tag c with
      | none => rw [hc] at h; simp at h
      | some p =>
        rw [hc] at h
        obtain rfl : ((0 : Nat), p) = ip := Option.some.inj (by simpa using h)
        obtain ⟨a2, cs2, hg⟩ := findLastTag_sound tag c p hc
        exact ⟨a2, cs2, by rw [getAtF]; exact hg⟩
end
mutual
theorem findLastTag_none_count (tag : Str) : (n : HNode) →
    findLastTag tag n = none → countTag tag n = 0
  | .text s, _ => rfl
  | .elem t a cs, h => by
    by_cases ht : t = tag
    · rw [findLastTag, if_pos ht] at h
      exact Option.noConfusion h
    · rw [findLastTag, if_neg ht] at h
      cases hf : findLastTagF tag cs with
      | some ip => rw [hf] at h; simp at h
      | none =>
        rw [countTag, if_neg ht, findLastTagF_none_count tag cs hf]

theorem findLastTagF_none_count (tag : Str) : (cs : HForest) →
    findLastTagF tag cs = none → countTagF tag cs = 0
  | .nil, _ => rfl
  | .cons c rest, h => by
    rw [findLastTagF] at h
    cases hr : findLastTagF tag rest with
    | some ip => rw [hr] at h; exact Option.noConfusion h
    | none =>
      rw [hr] at h
      cases hc : findLastTag tag c with
      | some p => rw [hc] at h; simp at h
      | none =>
        rw [countTagF, findLastTag_none_count tag c hc,
          findLastTagF_none_count tag rest hr]
end

mutual
theorem getAt_modifyAt (f : HNode → HNode) : (n : HNode) → (p : List Nat) →
    (m : HNode) → getAt n p = some m → getAt (modifyAt f n p) p = some (f m)
  | n, [], m, h => by
    simp only [getAt] at h
    obtain rfl := Option.some.inj h
    simp [modifyAt, getAt]
  | .text s, i :: p, m, h => by simp [getAt] at h
  | .elem t a cs, i :: p, m, h => by
    rw [getAt] at h
    rw [modifyAt, getAt]
    exact getAtF_modifyAtF f cs i p m h

theorem getAtF_modifyAtF (f : HNode → HNode) : (cs : HForest) → (i : Nat) →
    (p : List Nat) → (m : HNode) → getAtF cs i p = some m →
    getAtF (modifyAtF f cs i p) i p = some (f m)
  | .nil, i, p, m, h => by simp [getAtF] at h
  | .cons c rest, 0, p, m, h => by
    rw [getAtF] at h
    rw [modifyAtF, getAtF]
    exact getAt_modifyAt f c p m h
  | .cons c rest, i + 1, p, m, h => by
    rw [getAtF] at h
    rw [modifyAtF, getAtF]
    exact getAtF_modifyAtF f rest i p m h
end

mutual
theorem countTag_modifyAt (tag : Str) (f : HNode → HNode) : (n : HNode) →
    (p : List Nat) → (m : HNode) → getAt n p = some m →
    countTag tag (modifyAt f n p) + countTag tag m =
      countTag tag n + countTag tag (f m)
  | n, [], m, h => by
    simp only [getAt] at h
    obtain rfl := Option.some.inj h
    simp only [modifyAt]
    omega
  | .text s, i :: p, m, h => by simp [getAt] at h
  | .elem t a cs, i :: p, m, h => by
    rw [getAt] at h
    rw [modifyAt, countTag, countTag]
    have := countTagF_modifyAtF tag f cs i p m h
    omega

theorem countTagF_modifyAtF (tag : Str) (f : HNode → HNode) : (cs : HForest) →
    (i : Nat) → (p : List Nat) → (m : HNode) → getAtF cs i p = some m →
    countTagF tag (modifyAtF f cs i p) + countTag tag m =
      countTagF tag cs + countTag tag (f m)
  | .nil, i, p, m, h => by simp [getAtF] at h
  | .cons c rest, 0, p, m, h => by
    rw [getAtF] at h
    rw [modifyAtF, countTagF, countTagF]
    have := countTag_modifyAt tag f c p m h
    omega
  | .cons c rest, i + 1, p, m, h => by
    rw [getAtF] at h
    rw [modifyAtF, countTagF, countTagF]
    have := countTagF_modifyAtF tag f rest i p m h
    omega
end

mutual
theorem countTag_getAt_le (tag : Str) : (n : HNode) → (p : List Nat) →
    (m : HNode) → getAt n p = some m → countTag tag m ≤ countTag tag n
  | n, [], m, h => by
    simp only [getAt] at h
    obtain rfl := Option.some.inj h
    exact Nat.le_refl _
  | .text s, i :: p, m, h => by simp [getAt] at h
  | .elem t a cs, i :: p, m, h => by
    rw [getAt] at h
    have := countTagF_getAtF_le tag cs i p m h
    rw [countTag]
    omega

theorem countTagF_getAtF_le (tag : Str) : (cs : HForest) → (i : Nat) →
    (p : List Nat) → (m : HNode) → getAtF cs i p = some m →
    countTag tag m ≤ countTagF tag cs
  | .nil, i, p, m, h => by simp [getAtF] at h
  | .cons c rest, 0, p, m, h => by
    rw [getAtF] at h
    have := countTag_getAt_le tag c p m h
    rw [countTagF]
    omega
  | .cons c rest, i + 1, p, m, h => by
    rw [getAtF] at h
    have := countTagF_getAtF_le tag rest i p m h
    rw [countTagF]
    omega
end
mutual
theorem getAt_append : (n : HNode) → (p q : List Nat) →
    getAt n (p ++ q) = (getAt n p).bind (fun m => getAt m q)
  | n, [], q => by simp [getAt]
  | .text s, i :: p, q => by simp [getAt]
  | .elem t a cs, i :: p, q => by
    rw [List.cons_append, getAt, getAt]
    exact getAtF_append cs i p q

theorem getAtF_append : (cs : HForest) → (i : Nat) → (p q : List Nat) →
    getAtF cs i (p ++ q) = (getAtF cs i p).bind (fun m => getAt m q)
  | .nil, i, p, q => by simp [getAtF]
  | .cons c rest, 0, p, q => by
    rw [getAtF, getAtF]
    exact getAt_append c p q
  | .cons c rest, i + 1, p, q => by
    rw [getAtF, getAtF]
    exact getAtF_append rest i p q
end

theorem countTag_scriptNode (sc : ScriptConfig) :
    countTag "head".data (scriptNode sc) = 0 := by
  unfold scriptNode
  rw [countTag, if_neg (by decide)]
  by_cases hc : sc.content = []
  · rw [if_pos hc, countTagF]
  · rw [if_neg hc, countTagF, countTag, countTagF]

theorem insertScript_shape (sc : ScriptConfig) (hsc : sc.insertFirst = true)
    (t : Str) (a : List (Str × Str)) (cs : HForest) :
    insertScriptIntoHead sc (.elem t a cs) =
      .elem t a (.cons (scriptNode sc) cs) := by
  rw [insertScriptIntoHead, hsc]
  simp

theorem insertScript_count (sc : ScriptConfig) (hsc : sc.insertFirst = true)
    (t : Str) (a : List (Str × Str)) (cs : HForest) :
    countTag "head".data (insertScriptIntoHead sc (.elem t a cs)) =
      countTag "head".data (.elem t a cs) := by
  rw [insertScript_shape sc hsc, countTag, countTag, countTagF,
    countTag_scriptNode]
  omega
/-- C8: for two scripts registered with insert_first (as the proxy
registers heartbeat then navigation) and any parsed document with at
most one head element (the HTML5 parser yields exactly one), a
successful injection yields a document with exactly one head whose two
earliest children are the injected script elements, contiguous and in
reverse registration order; injection fails only when the document has
neither a head nor an html element. -/
theorem c8_injected_scripts_first (s1 s2 : ScriptConfig) (doc : HNode)
    (h1 : s1.insertFirst = true) (h2 : s2.insertFirst = true)
    (hheads : countTag "head".data doc ≤ 1) :
    (∀ out, injectIntoHTML [s1, s2] doc = .ok out →
      countTag "head".data out = 1 ∧
      ∃ p a cs, getAt out p =
        some (.elem "head".data a
          (.cons (scriptNode s2) (.cons (scriptNode s1) cs)))) ∧
    (∀ e, injectIntoHTML [s1, s2] doc = .error e →
      findLastTag "head".data doc = none ∧ findLastTag "html".data doc = none) := by
  unfold injectIntoHTML ensureHead
  cases hhead : findLastTag "head".data doc with
  | some p =>
    simp only [List.foldl_cons, List.foldl_nil]
    constructor
    · intro out hout
      obtain rfl :
          modifyAt (insertScriptIntoHead s2)
            (modifyAt (insertScriptIntoHead s1) doc p) p = out :=
        Except.ok.inj hout
      obtain ⟨a, cs, hg⟩ := findLastTag_sound _ doc p hhead
      have hg1 := getAt_modifyAt (insertScriptIntoHead s1) doc p _ hg
      rw [insertScript_shape s1 h1] at hg1
      have hg2 := getAt_modifyAt (insertScriptIntoHead s2) _ p _ hg1
      rw [insertScript_shape s2 h2] at hg2
      constructor
      · have hle := countTag_getAt_le "head".data doc p _ hg
        rw [countTag, if_pos rfl] at hle
        have hcd : countTag "head".data doc = 1 := by omega
        have hc1 := countTag_modifyAt "head".data (insertScriptIntoHead s1) doc p _ hg
        rw [insertScript_count s1 h1] at hc1
        have hc2 := countTag_modifyAt "head".data (insertScriptIntoHead s2) _ p _ hg1
        rw [insertScript_count s2 h2] at hc2
        have hmid : countTag "head".data
            (.elem "head".data a (.cons (scriptNode s1) cs)) =
            countTag "head".data (.elem "head".data a cs) := by
          rw [← insertScript_shape s1 h1, insertScript_count s1 h1]
        show countTag "head".data
          (modifyAt (insertScriptIntoHead s2)
            (modifyAt (insertScriptIntoHead s1) doc p) p) = 1
        omega
      · exact ⟨p, a, cs, hg2⟩
    · intro e he
      exact Except.noConfusion he
  | none =>
    cases hhtml : findLastTag "html".data doc with
    | none =>
      constructor
      · intro out hout
        exact Except.noConfusion hout
      · intro e he
        exact ⟨rfl, rfl⟩
    | some q =>
      simp only [List.foldl_cons, List.foldl_nil]
      constructor
      · intro out hout
        obtain rfl :
            modifyAt (insertScriptIntoHead s2)
              (modifyAt (insertScriptIntoHead s1)
                (modifyAt (prependChildNode newHeadNode) doc q) (q ++ [0]))
              (q ++ [0]) = out :=
          Except.ok.inj hout
        obtain ⟨a, cs, hg⟩ := findLastTag_sound _ doc q hhtml
        have hd := getAt_modifyAt (prependChildNode newHeadNode) doc q _ hg
        rw [show prependChildNode newHeadNode (.elem "html".data a cs) =
          .elem "html".data a (.cons newHeadNode cs) from rfl] at hd
        have hd0 : getAt (modifyAt (prependChildNode newHeadNode) doc q)
            (q ++ [0]) = some newHeadNode := by
          rw [getAt_append, hd]
          simp [getAt, getAtF]
        have hg1 := getAt_modifyAt (insertScriptIntoHead s1) _ (q ++ [0]) _ hd0
        rw [show insertScriptIntoHead s1 newHeadNode =
          .elem "head".data [] (.cons (scriptNode s1) .nil) from by
            rw [show newHeadNode = .elem "head".data [] .nil from rfl,
              insertScript_shape s1 h1]] at hg1
        have hg2 := getAt_modifyAt (insertScriptIntoHead s2) _ (q ++ [0]) _ hg1
        rw [insertScript_shape s2 h2] at hg2
        constructor
        · have hcd0 : countTag "head".data doc = 0 :=
            findLastTag_none_count _ doc hhead
          have hc0 := countTag_modifyAt "head".data
            (prependChildNode newHeadNode) doc q _ hg
          have hpre : countTag "head".data
              (prependChildNode newHeadNode (.elem "html".data a cs)) =
              countTag "head".data (.elem "html".data a cs) + 1 := by
            rw [show prependChildNode newHeadNode (.elem "html".data a cs) =
              .elem "html".data a (.cons newHeadNode cs) from rfl]
            rw [countTag, countTag, countTagF,
              show countTag "head".data newHeadNode = 1 from by
                rw [show newHeadNode = .elem "head".data [] .nil from rfl,
                  countTag, if_pos rfl, countTagF]]
            omega
          rw [hpre] at hc0
          have hc1 := countTag_modifyAt "head".data (insertScriptIntoHead s1)
            _ (q ++ [0]) _ hd0
          rw [show countTag "head".data (insertScriptIntoHead s1 newHeadNode) =
            countTag "head".data newHeadNode from by
              rw [show newHeadNode = .elem "head".data [] .nil from rfl]
              exact insertScript_count s1 h1 _ _ _] at hc1
          have hc2 := countTag_modifyAt "head".data (insertScriptIntoHead s2)
            _ (q ++ [0]) _ hg1
          rw [insertScript_count s2 h2] at hc2
          have hmid2 : countTag "head".data
              (.elem "head".data [] (.cons (scriptNode s1) .nil)) =
              countTag "head".data newHeadNode := by
            rw [← insertScript_shape s1 h1, insertScript_count s1 h1]
            rfl
          have hnew : countTag "head".data newHeadNode = 1 := by
            rw [show newHeadNode = .elem "head".data [] .nil from rfl,
              countTag, if_pos rfl, countTagF]
          have hcle := countTag_getAt_le "head".data doc q _ hg
          show countTag "head".data
            (modifyAt (insertScriptIntoHead s2)
              (modifyAt (insertScriptIntoHead s1)
                (modifyAt (prependChildNode newHeadNode) doc q) (q ++ [0]))
              (q ++ [0])) = 1
          omega
        · exact ⟨q ++ [0], [], .nil, hg2⟩
      · intro e he
        exact Except.noConfusion he
/-- A small parsed document for the C8 witness: html with one head and a
body. -/
def docC8 : HNode :=
  .elem "html".data []
    (.cons (.elem "head".data [] (.cons (.text "T".data) .nil))
      (.cons (.elem "body".data [] .nil) .nil))

/-- The heartbeat script registration of the proxy. -/
def hbScript : ScriptConfig := ⟨"HB".data, [], true⟩

/-- The navigation script registration of the proxy. -/
def navScript : ScriptConfig := ⟨"NAV".data, [], true⟩

/-- Witness for C8 at a concrete document and the proxy's two script
registrations. -/
theorem c8_injected_scripts_first_witness :
    hbScript.insertFirst = true ∧ navScript.insertFirst = true ∧
    countTag "head".data docC8 ≤ 1 ∧
    ((∀ out, injectIntoHTML [hbScript, navScript] docC8 = .ok out →
      countTag "head".data out = 1 ∧
      ∃ p a cs, getAt out p =
        some (.elem "head".data a
          (.cons (scriptNode navScript) (.cons (scriptNode hbScript) cs)))) ∧
    (∀ e, injectIntoHTML [hbScript, navScript] docC8 = .error e →
      findLastTag "head".data docC8 = none ∧
      findLastTag "html".data docC8 = none)) :=
  ⟨rfl, rfl, by decide,
    c8_injected_scripts_first hbScript navScript docC8 rfl rfl (by decide)⟩
end CodePanda
